import Mathlib

/-!
Verification development for the ZKSync Lite ingestion-and-decoding pipeline
(`rotkehlchen/chain/zksync_lite/manager.py`).

The Python source is shallowly embedded: pure helpers become Lean functions,
database/state effects become explicit state passing on a `DBState` record,
fallible paths return `Option`, and the HTTP retry loop is driven by an
explicit stream of responses.  Arbitrary-precision decimal amounts (`FVal`)
are modelled as `ℚ`; addresses and transaction hashes as `String`.
-/

/-- An asset as used by the manager (resolved `CryptoAsset`).  Only the
fields the pipeline reads are kept: an identifier, a symbol and the decimal
precision used for amount scaling. -/
structure CryptoAsset where
  identifier : String
  symbol : String
  decimals : Nat
deriving DecidableEq, Repr

/-- Accumulator-style parse of a non-negative decimal numeral; any
non-digit character fails. -/
def parseDecimalDigits : List Char → Nat → Option Nat
  | [], acc => some acc
  | c :: cs, acc =>
    if c.isDigit then parseDecimalDigits cs (acc * 10 + (c.toNat - 48)) else none

/-- Modelled from the spec: `deserialize_int_from_str` parses a numeric
amount string as an arbitrary-precision decimal integer (the helper lives
outside the provided source file); parse failure is a
`DeserializationError`, hence `none`. -/
def deserializeIntFromStr (s : String) : Option Nat :=
  match s.toList with
  | [] => none
  | c :: cs => parseDecimalDigits (c :: cs) 0

/-- Modelled from the spec: `asset_normalized_value` scales a raw integer
amount by the asset's decimal precision to a human-scale amount (the helper
lives outside the provided source file).  Stated via `mkRat`, which equals
`raw / 10 ^ decimals` (see `assetNormalizedValue_eq_div`). -/
def assetNormalizedValue (raw : Nat) (asset : CryptoAsset) : ℚ :=
  mkRat raw (10 ^ asset.decimals)

/-- `ZKSyncLiteTXType` enum (imported by the manager from `.structures`,
which is outside the provided source; variants listed per the spec's type
table and the manager's `match` arms). -/
inductive ZKSyncLiteTXType where
  | deposit
  | withdraw
  | transfer
  | changepubkey
  | forcedexit
  | fullexit
  | swap
deriving DecidableEq, Repr

/-- `ZKSyncLiteTXType.deserialize` maps the envelope's `op.type` string to
the enum; an unknown string is a `DeserializationError` (`none`). -/
def ZKSyncLiteTXType.deserialize (s : String) : Option ZKSyncLiteTXType :=
  if s = "Deposit" then some .deposit
  else if s = "Withdraw" then some .withdraw
  else if s = "Transfer" then some .transfer
  else if s = "ChangePubKey" then some .changepubkey
  else if s = "ForcedExit" then some .forcedexit
  else if s = "FullExit" then some .fullexit
  else if s = "Swap" then some .swap
  else none

/-- `ZKSyncLiteSwapData`: the two swap legs (sell asset/amount and buy
asset/amount), owned by the parent transaction. -/
structure ZKSyncLiteSwapData where
  from_asset : CryptoAsset
  from_amount : ℚ
  to_asset : CryptoAsset
  to_amount : ℚ
deriving DecidableEq, Repr

/-- `ZKSyncLiteTransaction`: the normalized transaction record built by
`_deserialize_zksync_transaction` (structure is imported from
`.structures`, outside the provided source; fields follow the spec's
NormalizedTransaction description and the manager's constructor call). -/
structure ZKSyncLiteTransaction where
  tx_hash : String
  tx_type : ZKSyncLiteTXType
  timestamp : Nat
  block_number : Nat
  from_address : Option String
  to_address : Option String
  asset : CryptoAsset
  amount : ℚ
  fee : Option ℚ
  swap_data : Option ZKSyncLiteSwapData
deriving DecidableEq, Repr

/-- One entry of `op.orders` read by the Swap branch. -/
structure RawOrder where
  tokenSell : Nat
  amount : String
deriving DecidableEq, Repr

/-- The `op` sub-object of a raw transaction envelope.  Every key the
manager may read is an `Option`: `none` models a missing key (a Python
`KeyError` at the access site). -/
structure RawOp where
  type : String
  fee : Option String
  fromAddr : Option String
  toAddr : Option String
  account : Option String
  target : Option String
  ethHash : Option String
  tokenId : Option Nat
  token : Option Nat
  feeToken : Option Nat
  amount : Option String
  orders : List RawOrder
deriving DecidableEq, Repr

/-- A raw transaction envelope as returned by the API. -/
structure RawEntry where
  txHash : String
  status : Option String
  blockNumber : Nat
  createdAt : Nat
  op : RawOp
deriving DecidableEq, Repr

/-- `_get_token_and_amount_by_id_or_log`: resolves the asset from the value
found under the asset key and, when an amount key is given, parses and
scales the amount (otherwise the amount is `ZERO`).  `assetKeyVal` is the
value under `entry['op'][asset_key]` (`none` = missing key, a `KeyError`);
`amountKeyVal` is `none` when `amount_key` is `None`, and otherwise carries
the value under the amount key. -/
def getTokenAndAmountByIdOrLog (idToToken : Nat → Option CryptoAsset)
    (assetKeyVal : Option Nat) (amountKeyVal : Option (Option String)) :
    Option (CryptoAsset × ℚ) := do
  let tid ← assetKeyVal
  let asset ← idToToken tid
  match amountKeyVal with
  | none => pure (asset, 0)
  | some mv => do
      let s ← mv
      let raw ← deserializeIntFromStr s
      pure (asset, assetNormalizedValue raw asset)

/-- Result of the per-type branch of `_deserialize_zksync_transaction`:
the (possibly overridden) hash, addresses, primary asset/amount and
optional swap legs. -/
structure BranchOut where
  txHash : String
  fromAddr : Option String
  toAddr : Option String
  asset : CryptoAsset
  amount : ℚ
  swapData : Option ZKSyncLiteSwapData
deriving DecidableEq, Repr

/-- The per-type field extraction of `_deserialize_zksync_transaction`
(lines 299-378 of the source).  Any missing key or unresolvable asset makes
the whole entry `none`. -/
def deserializeBranch (idToToken : Nat → Option CryptoAsset)
    (entry : RawEntry) (concerning : String) (txType : ZKSyncLiteTXType) :
    Option BranchOut :=
  match txType with
  | .deposit => do
      let f ← entry.op.fromAddr
      let t ← entry.op.toAddr
      let (asset, amount) ←
        getTokenAndAmountByIdOrLog idToToken entry.op.tokenId (some entry.op.amount)
      pure ⟨entry.txHash, some f, some t, asset, amount, none⟩
  | .changepubkey => do
      let f ← entry.op.account
      let res ←
        getTokenAndAmountByIdOrLog idToToken entry.op.feeToken (some entry.op.fee)
      -- source: `asset = asset_amount[0]  # there is no amount. Just fee`
      -- the parsed amount is discarded and `amount` keeps its initial ZERO
      pure ⟨entry.txHash, some f, none, res.1, 0, none⟩
  | .forcedexit => do
      let t ← entry.op.target
      let (asset, amount) ←
        getTokenAndAmountByIdOrLog idToToken entry.op.token none
      pure ⟨entry.txHash, some concerning, some t, asset, amount, none⟩
  | .fullexit => do
      -- the hash is sourced from op.ethHash, overriding the top-level hash
      let h ← entry.op.ethHash
      let (asset, amount) ←
        getTokenAndAmountByIdOrLog idToToken entry.op.tokenId none
      pure ⟨h, some concerning, some concerning, asset, amount, none⟩
  | .swap => do
      let (asset, amount) ←
        getTokenAndAmountByIdOrLog idToToken entry.op.feeToken (some entry.op.fee)
      let o0 ← entry.op.orders.get? 0
      let a0 ← idToToken o0.tokenSell
      let r0 ← deserializeIntFromStr o0.amount
      let o1 ← entry.op.orders.get? 1
      let a1 ← idToToken o1.tokenSell
      let r1 ← deserializeIntFromStr o1.amount
      pure ⟨entry.txHash, some concerning, some concerning, asset, amount,
        some ⟨a0, assetNormalizedValue r0 a0, a1, assetNormalizedValue r1 a1⟩⟩
  | _ => do
      -- transfer / withdraw default branch
      let f ← entry.op.fromAddr
      let t ← entry.op.toAddr
      let (asset, amount) ←
        getTokenAndAmountByIdOrLog idToToken entry.op.token (some entry.op.amount)
      pure ⟨entry.txHash, some f, some t, asset, amount, none⟩

/-- `_deserialize_zksync_transaction`: normalizes one raw envelope for the
concerning address, or discards it (`none`).  Entries whose status is
present and not `finalized` are discarded; the fee string is parsed up
front; the final `fee` field follows the source's
`Fee(asset_normalized_value(fee_raw, asset)) if fee_raw else None`
(Python truthiness: a parsed fee of 0 also yields `None`). -/
def deserializeZksyncTransaction (idToToken : Nat → Option CryptoAsset)
    (entry : RawEntry) (concerning : String) : Option ZKSyncLiteTransaction :=
  if entry.status.getD "finalized" ≠ "finalized" then none
  else
    match ZKSyncLiteTXType.deserialize entry.op.type with
    | none => none
    | some txType =>
      let feeRawOpt : Option (Option Nat) :=
        match entry.op.fee with
        | none => some none
        | some s => (deserializeIntFromStr s).map some
      match feeRawOpt with
      | none => none
      | some feeRaw =>
        match deserializeBranch idToToken entry concerning txType with
        | none => none
        | some b =>
          some {
            tx_hash := b.txHash
            tx_type := txType
            timestamp := entry.createdAt
            block_number := entry.blockNumber
            from_address := b.fromAddr
            to_address := b.toAddr
            asset := b.asset
            amount := b.amount
            fee :=
              match feeRaw with
              | some r => if r = 0 then none else some (assetNormalizedValue r b.asset)
              | none => none
            swap_data := b.swapData }

/-- One HTTP response as observed by `_query_api`.  `isException` models a
`requests` exception on the GET itself; `validJson` whether the body parses
as a JSON dict; `result` the value under the top-level `result` key
(`none` = missing). -/
structure ApiResponse where
  isException : Bool
  status : Nat
  validJson : Bool
  result : Option (List (String × String))
deriving DecidableEq, Repr

/-- Outcome of `_query_api`: the returned result dict, or a raised
`RemoteError`. -/
inductive QueryOutcome where
  | ok (result : List (String × String))
  | err (msg : String)
deriving DecidableEq, Repr

/-- The source's `backoff_limit = 33`. -/
def backoffLimit : Nat := 33

/-- The `while backoff < backoff_limit` loop of `_query_api`, driven by the
stream of responses `resp` (one per attempt).  Returns the outcome together
with the list of backoff sleeps performed.  `fuel` only cuts the loop after
`backoffLimit` iterations, far more than the doubling backoff ever allows,
so behaviour matches the source exactly; both the fuel cut and the
`backoff < backoff_limit` exit return the initial empty `result` dict, as
the source's final `return result` does. -/
def queryApiLoop (resp : Nat → ApiResponse) : Nat → Nat → Nat → List Nat →
    QueryOutcome × List Nat
  | 0, _, _, slept => (.ok [], slept)
  | fuel + 1, attempt, backoff, slept =>
    if backoff < backoffLimit then
      let r := resp attempt
      if r.isException then (.err "request failed", slept)
      else if r.status = 429 then
        if backoff ≥ backoffLimit then
          (.err "too many requests even after backoff", slept)
        else
          queryApiLoop resp fuel (attempt + 1) (backoff * 2) (slept ++ [backoff])
      else if r.status ≠ 200 then (.err "bad http status", slept)
      else if !r.validJson then (.err "invalid json", slept)
      else
        match r.result with
        | none => (.err "missing result", slept)
        | some v => (.ok v, slept)
    else (.ok [], slept)

/-- `_query_api`: initial `backoff = 1`, `backoff_limit = 33`, empty
initial result. -/
def queryApi (resp : Nat → ApiResponse) : QueryOutcome × List Nat :=
  queryApiLoop resp backoffLimit 0 1 []

/-- Processing of one envelope inside the page loop when the
first-row-of-page skip check does not apply: deserialize, and on success
append the transaction and remember the entry's hash in `last_tx_hash`. -/
def procEntry (norm : RawEntry → Option ZKSyncLiteTransaction)
    (e : RawEntry) (acc : List ZKSyncLiteTransaction × String) :
    List ZKSyncLiteTransaction × String :=
  match norm e with
  | some t => (acc.1 ++ [t], e.txHash)
  | none => acc

/-- The page loop for all entries after the first (no skip check). -/
def procRest (norm : RawEntry → Option ZKSyncLiteTransaction) :
    List RawEntry → List ZKSyncLiteTransaction × String →
    List ZKSyncLiteTransaction × String
  | [], acc => acc
  | e :: es, acc => procRest norm es (procEntry norm e acc)

/-- One page of the loop in `_query_zksync_api_transactions`: the first
entry is dropped when its hash equals `last_tx_hash` from the previous page
(`# at pagination first tx is last query's last`); the rest are processed
normally.  Returns the page's batch and the updated `last_tx_hash`. -/
def procPage (norm : RawEntry → Option ZKSyncLiteTransaction)
    (page : List RawEntry) (last : String) :
    List ZKSyncLiteTransaction × String :=
  match page with
  | [] => ([], last)
  | e :: es =>
    if e.txHash = last then procRest norm es ([], last)
    else procRest norm es (procEntry norm e ([], last))

/-- The whole paginated fetch over the pages the API returned, threading
`last_tx_hash` across pages; yields each page's batch, and the merged
sequence is their concatenation.  Also returns the final `last_tx_hash`. -/
def procPagesAcc (norm : RawEntry → Option ZKSyncLiteTransaction) :
    List (List RawEntry) → String → List ZKSyncLiteTransaction × String
  | [], last => ([], last)
  | p :: ps, last =>
    let r := procPage norm p last
    let s := procPagesAcc norm ps r.2
    (r.1 ++ s.1, s.2)

/-- The merged sequence of normalized transactions yielded over a session;
`last_tx_hash` starts as the empty string, as in the source. -/
def mergedOutput (norm : RawEntry → Option ZKSyncLiteTransaction)
    (pages : List (List RawEntry)) : List ZKSyncLiteTransaction :=
  (procPagesAcc norm pages "").1

/-- A row of `zksynclite_transactions`: the serialized transaction together
with its `is_decoded` flag (0 on insert). -/
structure DBRow where
  tx : ZKSyncLiteTransaction
  isDecoded : Bool
deriving DecidableEq, Repr

/-- `HistoryEventType` values used by the decoder. -/
inductive HistoryEventType where
  | deposit
  | withdrawal
  | transfer
  | spend
  | receive
  | informational
  | trade
deriving DecidableEq, Repr

/-- `HistoryEventSubType` values used by the decoder. -/
inductive HistoryEventSubType where
  | none
  | bridge
  | fee
  | spend
  | receive
deriving DecidableEq, Repr

/-- History event as materialised by `decode_transaction` (an `EvmEvent`
row of `history_events`).  The human-readable `notes` string (pure
presentation, built from Python's `str()` of amounts) and the constant
`location` column are omitted; every field any claim compares is present.
`amount` is the `Balance.amount`. -/
structure EvmEvent where
  event_identifier : String
  tx_hash : String
  sequence_index : Nat
  timestamp : Nat
  event_type : HistoryEventType
  event_subtype : HistoryEventSubType
  asset : CryptoAsset
  amount : ℚ
  location_label : Option String
  address : Option String
deriving DecidableEq, Repr

/-- The database state the manager manipulates: transaction rows (in
insertion order, row id = list index), swap-leg rows keyed by the parent
transaction's row id, history events, and the per-location query ranges. -/
structure DBState where
  txs : List DBRow
  swaps : List (Nat × ZKSyncLiteSwapData)
  events : List EvmEvent
  ranges : List (String × Nat × Nat)
deriving DecidableEq, Repr

/-- Hashes currently stored in `zksynclite_transactions` (its
hash-uniqueness constraint is checked against these). -/
def txHashes (st : DBState) : List String :=
  st.txs.map (fun r => r.tx.tx_hash)

/-- One `INSERT` of `_add_zksynctxs_db` after the uniqueness check passed:
the transaction row is added (`is_decoded` defaults to 0) and, for a Swap,
the swap-leg row is added under the fresh row id.  A Swap whose `swap_data`
is `None` makes the source crash on
`transaction.swap_data.serialize_for_db` (an `AttributeError`, not caught
by the `IntegrityError` handler): modelled as `none`. -/
def insertTx (t : ZKSyncLiteTransaction) (st : DBState) : Option DBState :=
  let rowid := st.txs.length
  let st1 : DBState := { st with txs := st.txs ++ [⟨t, false⟩] }
  if t.tx_type = .swap then
    match t.swap_data with
    | some sd => some { st1 with swaps := st1.swaps ++ [(rowid, sd)] }
    | none => none
  else some st1

/-- `_add_zksynctxs_db`: inserts each transaction in turn; a hash already
present raises `IntegrityError`, which is logged and the loop `continue`s
with the next transaction. -/
def addZksyncTxsDb : List ZKSyncLiteTransaction → DBState → Option DBState
  | [], st => some st
  | t :: ts, st =>
    if t.tx_hash ∈ txHashes st then
      addZksyncTxsDb ts st
    else
      match insertTx t st with
      | some st1 => addZksyncTxsDb ts st1
      | none => none

/-- `DBQueryRanges.update_used_query_range`: the range stored under the
location string is replaced. -/
def setRange (loc : String) (rng : Nat × Nat) (st : DBState) : DBState :=
  { st with ranges := (loc, rng) :: st.ranges.filter (fun p => p.1 ≠ loc) }

/-- Walk direction (`Literal['older', 'newer']`). -/
inductive Direction where
  | older
  | newer
deriving DecidableEq, Repr

/-- How one walk ends: normal completion, a `RemoteError` raised while
querying a page, or an uncaught crash (the Swap `AttributeError` above).
The first two carry the database state at that moment — Python exceptions
do not roll back already-committed writes. -/
inductive WalkExit where
  | done (st : DBState)
  | remoteErr (st : DBState)
  | crashed
deriving DecidableEq, Repr

/-- The body of `_query_and_save_transactions_for_range`, consuming the
generator's pages (`none` models a page query that raised `RemoteError`).
Per non-empty batch: dedup against the session-wide `input_transactions`
set, insert into the DB, advance the query-range watermark from the
batch's last item, then remember the batch. -/
def querySaveGo (loc : String) (dir : Direction) :
    List (Option (List ZKSyncLiteTransaction)) → Nat → Nat →
    List ZKSyncLiteTransaction → DBState → WalkExit
  | [], _, _, _, st => .done st
  | none :: _, _, _, _, st => .remoteErr st
  | some [] :: rest, cs, ce, seen, st => querySaveGo loc dir rest cs ce seen st
  | some (b :: bs) :: rest, cs, ce, seen, st =>
    -- Python's `set(new_transactions) - input_transactions`; set iteration
    -- order is modelled as the deduplicated list order
    let uniq := ((b :: bs).dedup).filter (fun t => decide (t ∉ seen))
    match addZksyncTxsDb uniq st with
    | none => .crashed
    | some st1 =>
      let lastTs := ((b :: bs).getLast (List.cons_ne_nil b bs)).timestamp
      let cs1 := match dir with | .older => lastTs | .newer => cs
      let ce1 := match dir with | .older => ce | .newer => lastTs
      let st2 := setRange loc (cs1, ce1) st1
      querySaveGo loc dir rest cs1 ce1 (seen ++ uniq) st2

/-- One walk: its pages plus the arguments
`_query_and_save_transactions_for_range` receives. -/
structure WalkSpec where
  pages : List (Option (List ZKSyncLiteTransaction))
  location : String
  start_ts : Nat
  end_ts : Nat
  dir : Direction

/-- `_query_and_save_transactions_for_range` for one walk:
`input_transactions` starts empty, the watermark starts at
`(start_ts, end_ts)`. -/
def querySaveRange (w : WalkSpec) (st : DBState) : WalkExit :=
  querySaveGo w.location w.dir w.pages w.start_ts w.end_ts [] st

/-- The walks of one `fetch_transactions` call, run in order inside the
single `try`: the first abnormal exit aborts the remaining walks. -/
def runWalks : List WalkSpec → DBState → WalkExit
  | [], st => .done st
  | w :: ws, st =>
    match querySaveRange w st with
    | .done st1 => runWalks ws st1
    | .remoteErr st1 => .remoteErr st1
    | .crashed => .crashed

/-- How `fetch_transactions` ends: a normal return (with the final DB
state) or an uncaught exception. -/
inductive FetchOutcome where
  | returned (st : DBState)
  | raised
deriving DecidableEq, Repr

/-- The `try/except RemoteError` of `fetch_transactions`: a `RemoteError`
from any walk is caught and logged and the call returns normally; anything
else propagates. -/
def fetchTransactionsRun (walks : List WalkSpec) (st : DBState) : FetchOutcome :=
  match runWalks walks st with
  | .done st1 => .returned st1
  | .remoteErr st1 => .returned st1
  | .crashed => .raised

/-- Helper scanning for the row achieving the minimal timestamp. -/
def minRowAux : (String × Nat) → List (String × Nat) → (String × Nat)
  | best, [] => best
  | best, y :: ys => minRowAux (if y.2 < best.2 then y else best) ys

/-- Helper scanning for the row achieving the maximal timestamp. -/
def maxRowAux : (String × Nat) → List (String × Nat) → (String × Nat)
  | best, [] => best
  | best, y :: ys => maxRowAux (if y.2 > best.2 then y else best) ys

/-- The single row of `SELECT tx_hash, min(timestamp) FROM
zksynclite_transactions`: `(NULL, NULL)` on an empty table, otherwise the
hash and timestamp of a minimal row. -/
def sqlMinRow : List (String × Nat) → Option String × Option Nat
  | [] => (none, none)
  | x :: xs =>
    let r := minRowAux x xs
    (some r.1, some r.2)

/-- The single row of `SELECT tx_hash, max(timestamp) FROM
zksynclite_transactions`. -/
def sqlMaxRow : List (String × Nat) → Option String × Option Nat
  | [] => (none, none)
  | x :: xs =>
    let r := maxRowAux x xs
    (some r.1, some r.2)

/-- One call `_query_and_save_transactions_for_range` is planned with. -/
structure WalkCall where
  start_ts : Nat
  end_ts : Nat
  from_hash : String
  dir : Direction
deriving DecidableEq, Repr

/-- The cursor bootstrap and case split of `fetch_transactions`
(lines 543-593), returning the list of walk calls it issues.  `dbTxs` are
the stored `(tx_hash, timestamp)` pairs (the hex of a stored hash is the
string itself in this model, so Python's `'0x' + result[0].hex()` becomes
`"0x" ++ hash`).  Each SQL aggregate query yields exactly one row; each
`fetchone()` pops the cursor, so the source's second `fetchone()` on the
max-query cursor (line 558) reads an exhausted cursor. -/
def fetchTransactionsPlan (dbTxs : List (String × Nat))
    (queriedRange : Option (Nat × Nat)) (start_ts end_ts : Nat) :
    List WalkCall :=
  -- min(timestamp) query
  let cursor1 : List (Option String × Option Nat) := [sqlMinRow dbTxs]
  let fetch1 := cursor1.head?
  let minVals :=
    match fetch1 with
    | some (some h, some t) => ("0x" ++ h, t)
    | _ => ("latest", start_ts)
  -- max(timestamp) query; `result_hash = cursor.fetchone()[0]` consumes
  -- the only row, then the walrus `result_hash := cursor.fetchone()`
  -- fetches again from the exhausted cursor
  let cursor2 : List (Option String × Option Nat) := [sqlMaxRow dbTxs]
  let cursor2rest := cursor2.drop 1
  let fetch2 := cursor2rest.head?
  let maxVals :=
    match fetch1, fetch2 with
    | some r, some (some h, _) =>
      ("0x" ++ h, match r.2 with | some t => t | none => end_ts)
    | _, _ => ("latest", end_ts)
  match queriedRange with
  | none => [⟨start_ts, end_ts, "latest", .older⟩]
  | some qr =>
    if qr.1 ≠ 0 then
      [⟨start_ts, minVals.2, minVals.1, .older⟩,
       ⟨maxVals.2, end_ts, maxVals.1, .newer⟩]
    else
      [⟨maxVals.2, end_ts, maxVals.1, .newer⟩]

/-- Modelled from the spec: `ZKL_IDENTIFIER.format(tx_hash=...)` derives an
event identifier deterministically from the transaction hash (the constant
lives in `.constants`, outside the provided source). -/
def zklIdentifier (txHash : String) : String :=
  "ZKL" ++ txHash

/-- Python's `x in tracked_addresses` for an optional address: `None` is
never a tracked address. -/
def optTracked (addr : Option String) (tracked : List String) : Bool :=
  match addr with
  | some a => decide (a ∈ tracked)
  | none => false

/-- Python truthiness of the optional fee (`if transaction.fee:`): `None`
and a zero fee are both falsy. -/
def feeTruthy (fee : Option ℚ) : Bool :=
  match fee with
  | some f => decide (f ≠ 0)
  | none => false

/-- One tuple of the decoder's `event_data` list:
`(sequence_index, event_type, event_subtype, asset, amount,
location_label, target)` (the trailing notes string is presentation only
and omitted, see `EvmEvent`). -/
structure EventTuple where
  seq : Nat
  etype : HistoryEventType
  esub : HistoryEventSubType
  asset : CryptoAsset
  amount : ℚ
  locLabel : Option String
  target : Option String
deriving DecidableEq, Repr

/-- The `match transaction.tx_type` block of `decode_transaction`
(lines 658-789): builds `event_data` and applies the in-place mutation the
ChangePubKey arm performs on the transaction (`amount := fee`,
`fee := None`).  A Swap whose `swap_data` is missing fails the source's
`assert` (`none`). -/
def decodeEventData (tx : ZKSyncLiteTransaction) (tracked : List String) :
    Option (List EventTuple × ZKSyncLiteTransaction) :=
  let trackedFrom := optTracked tx.from_address tracked
  let trackedTo := optTracked tx.to_address tracked
  match tx.tx_type with
  | .deposit =>
    if trackedTo then
      some ([⟨0, .withdrawal, .bridge, tx.asset, tx.amount, tx.to_address, none⟩], tx)
    else some ([], tx)
  | .withdraw =>
    if trackedFrom then
      some ([⟨0, .deposit, .bridge, tx.asset, tx.amount, tx.from_address, tx.to_address⟩], tx)
    else some ([], tx)
  | .transfer =>
    if trackedFrom && trackedTo then
      some ([⟨0, .transfer, .none, tx.asset, tx.amount, tx.from_address, tx.to_address⟩], tx)
    else if trackedFrom then
      some ([⟨0, .spend, .none, tx.asset, tx.amount, tx.from_address, tx.to_address⟩], tx)
    else if trackedTo then
      some ([⟨0, .receive, .none, tx.asset, tx.amount, tx.to_address, tx.from_address⟩], tx)
    else some ([], tx)
  | .fullexit =>
    some ([⟨0, .informational, .none, tx.asset, tx.amount, tx.from_address, tx.to_address⟩], tx)
  | .forcedexit =>
    some ([⟨0, .informational, .none, tx.asset, tx.amount, tx.from_address, tx.to_address⟩], tx)
  | .changepubkey =>
    if feeTruthy tx.fee then
      let feeVal := tx.fee.getD 0
      let tx1 := { tx with amount := feeVal, fee := none }
      some ([⟨0, .spend, .fee, tx.asset, tx1.amount, tx.from_address, tx.to_address⟩], tx1)
    else
      -- logged error, no events
      some ([], tx)
  | .swap =>
    match tx.swap_data with
    | none => none
    | some sd =>
      some ([⟨0, .trade, .spend, sd.from_asset, sd.from_amount, tx.from_address, tx.to_address⟩,
             ⟨1, .trade, .receive, sd.to_asset, sd.to_amount, tx.from_address, tx.to_address⟩], tx)

/-- Materialise one `event_data` tuple as an `EvmEvent`
(`ts_sec_to_ms` is the second-to-millisecond conversion). -/
def mkEvent (eid : String) (txHash : String) (ts : Nat) (t : EventTuple) : EvmEvent :=
  { event_identifier := eid
    tx_hash := txHash
    sequence_index := t.seq
    timestamp := ts * 1000
    event_type := t.etype
    event_subtype := t.esub
    asset := t.asset
    amount := t.amount
    location_label := t.locLabel
    address := t.target }

/-- The fee-append block at the end of `decode_transaction`
(lines 807-830): when the transaction still carries a fee, the event list
is non-empty and the first event is not a receive, a trailing fee event is
appended; its sequence index is the last event's plus one, its type copies
the first event's, its `location_label` copies the first event's, and its
`address` is the loop variable `target`. -/
def appendFeeEvent (eid txHash : String) (ts : Nat) (target : Option String)
    (events : List EvmEvent) (tx1 : ZKSyncLiteTransaction) : List EvmEvent :=
  match events, tx1.fee with
  | e0 :: es, some f =>
    if e0.event_type ≠ .receive then
      (e0 :: es) ++
        [{ event_identifier := eid
           tx_hash := txHash
           sequence_index := ((e0 :: es).getLast (List.cons_ne_nil e0 es)).sequence_index + 1
           timestamp := ts * 1000
           event_type := e0.event_type
           event_subtype := .fee
           asset := tx1.asset
           amount := f
           location_label := e0.location_label
           address := target }]
    else e0 :: es
  | _, _ => events

/-- `decode_transaction` up to (but not including) the DB writes: the
emitted events in order (the `event_data` tuples materialised as events,
plus the optional trailing fee event), and the transaction object as the
call leaves it (the ChangePubKey arm mutates it).  `target` is the loop
variable after the `event_data` loop: the last tuple's target, or `None`
when no tuple was emitted. -/
def decodeTransactionPure (tx : ZKSyncLiteTransaction) (tracked : List String) :
    Option (List EvmEvent × ZKSyncLiteTransaction) :=
  match decodeEventData tx tracked with
  | none => none
  | some (eventData, tx1) =>
    let eid := zklIdentifier tx.tx_hash
    let events := eventData.map (mkEvent eid tx.tx_hash tx.timestamp)
    let target := match eventData.getLast? with
      | some t => t.target
      | none => none
    some (appendFeeEvent eid tx.tx_hash tx.timestamp target events tx1, tx1)

/-- The DB writes at the end of `decode_transaction`: every emitted event
is inserted into `history_events`, then `is_decoded` is set to 1 for the
transaction's hash — unconditionally, even when no event was emitted. -/
def decodeTransactionDb (tx : ZKSyncLiteTransaction) (tracked : List String)
    (st : DBState) : Option DBState :=
  match decodeTransactionPure tx tracked with
  | none => none
  | some (events, _) =>
    some { st with
      events := st.events ++ events
      txs := st.txs.map (fun r =>
        if r.tx.tx_hash = tx.tx_hash then { r with isDecoded := true } else r) }

/-- `DELETE FROM history_events WHERE event_identifier=?`. -/
def deleteEventsByIdentifier (eid : String) (st : DBState) : DBState :=
  { st with events := st.events.filter (fun e => decide (e.event_identifier ≠ eid)) }

/-- One transaction's processing inside a bulk decode pass
(`decode_undecoded_transactions`, lines 862-869): delete any previously
stored events for the transaction's identifier, then decode it again. -/
def decodeStep (tracked : List String) (tx : ZKSyncLiteTransaction)
    (st : DBState) : Option DBState :=
  decodeTransactionDb tx tracked
    (deleteEventsByIdentifier (zklIdentifier tx.tx_hash) st)

/-- The rows a non-forced bulk pass selects
(`WHERE is_decoded=0`); `get_db_transactions` additionally joins swap
rows, which can only drop further rows, so exclusion from this superset
implies exclusion from the real selection. -/
def getDbTransactionsUndecoded (st : DBState) : List ZKSyncLiteTransaction :=
  (st.txs.filter (fun r => r.isDecoded = false)).map (fun r => r.tx)

/-- A sample token with 2 decimals. -/
def tokenA : CryptoAsset := ⟨"TOKA", "TKA", 2⟩

/-- A second sample token with 3 decimals. -/
def tokenB : CryptoAsset := ⟨"TOKB", "TKB", 3⟩

/-- A sample populated token-id mapping (`self.id_to_token`). -/
def sampleTokenMap : Nat → Option CryptoAsset :=
  fun n => if n = 1 then some tokenA else if n = 2 then some tokenB else none

/-- A Transfer envelope `op`. -/
def transferOpA : RawOp :=
  { type := "Transfer", fee := none, fromAddr := some "0xF", toAddr := some "0xT",
    account := none, target := none, ethHash := none, tokenId := none,
    token := some 1, feeToken := none, amount := some "500", orders := [] }

/-- A finalized Transfer envelope with hash `0xA`. -/
def entryA : RawEntry := ⟨"0xA", some "finalized", 1, 100, transferOpA⟩

/-- A finalized Transfer envelope with hash `0xB`. -/
def entryB : RawEntry :=
  ⟨"0xB", some "finalized", 2, 200, { transferOpA with amount := some "700" }⟩

/-- The normalization of `entryA`. -/
def txAval : ZKSyncLiteTransaction :=
  ⟨"0xA", .transfer, 100, 1, some "0xF", some "0xT", tokenA,
    assetNormalizedValue 500 tokenA, none, none⟩

/-- The normalization of `entryB`. -/
def txBval : ZKSyncLiteTransaction :=
  ⟨"0xB", .transfer, 200, 2, some "0xF", some "0xT", tokenA,
    assetNormalizedValue 700 tokenA, none, none⟩

/-- An empty database. -/
def emptyDb : DBState := ⟨[], [], [], []⟩

/-- A permanently rate-limited response. -/
def rateLimitedResponse : ApiResponse := ⟨false, 429, true, none⟩

/-- A ChangePubKey envelope `op` with fee `100` of token 1. -/
def cpkOp : RawOp :=
  { type := "ChangePubKey", fee := some "100", fromAddr := none, toAddr := none,
    account := some "0xACC", target := none, ethHash := none, tokenId := none,
    token := none, feeToken := some 1, amount := none, orders := [] }

/-- A finalized ChangePubKey envelope. -/
def cpkEntry : RawEntry := ⟨"0xCPK", none, 10, 1000, cpkOp⟩

/-- The transaction `_deserialize_zksync_transaction` yields for
`cpkEntry`. -/
def cpkTxVal : ZKSyncLiteTransaction :=
  ⟨"0xCPK", .changepubkey, 1000, 10, some "0xACC", none, tokenA, 0,
    some (assetNormalizedValue 100 tokenA), none⟩

/-- Sample swap legs. -/
def swapSd : ZKSyncLiteSwapData := ⟨tokenA, 2, tokenB, 3⟩

/-- A Swap transaction carrying a fee. -/
def txSwapVal : ZKSyncLiteTransaction :=
  ⟨"0xS", .swap, 300, 3, some "0xME", some "0xME", tokenA,
    assetNormalizedValue 5 tokenA, some (assetNormalizedValue 5 tokenA),
    some swapSd⟩

/-- A DB state holding `txAval`, not yet decoded. -/
def stWithA : DBState := ⟨[⟨txAval, false⟩], [], [], []⟩

/-- The state after decoding `txAval` with no relevant tracked address:
zero events, flag set. -/
def stWithADecoded : DBState := ⟨[⟨txAval, true⟩], [], [], []⟩

/-- A Transfer transaction with a third hash. -/
def txCval : ZKSyncLiteTransaction :=
  ⟨"0xC", .transfer, 400, 4, some "0xF", some "0xT", tokenB,
    assetNormalizedValue 300 tokenB, none, none⟩

/-- A transaction that collides with `txAval` on the hash key. -/
def txAdup : ZKSyncLiteTransaction :=
  { txAval with amount := assetNormalizedValue 900 tokenA }

/-- The state after committing the single batch `[txAval]` under location
`L`, walking older from the requested range `(0, 50)`. -/
def stAfterBatch : DBState :=
  ⟨[⟨txAval, false⟩], [], [], [("L", (100, 50))]⟩

/-- Sanity: the scaling really is division by `10 ^ decimals`. -/
theorem assetNormalizedValue_eq_div (raw : Nat) (asset : CryptoAsset) :
    assetNormalizedValue raw asset = (raw : ℚ) / (10 : ℚ) ^ asset.decimals := by
  rw [assetNormalizedValue, Rat.mkRat_eq_div]
  push_cast
  ring

/-- C1: the claim says a permanently rate-limited `_query_api` call
eventually raises `RemoteError` with total backoff below the ceiling of 33.
The code does not: the loop guard `while backoff < backoff_limit` makes the
inner `backoff >= backoff_limit` raise unreachable, so after sleeping
1+2+4+8+16+32 = 63 time-units (total above the ceiling) the loop exits and
the function returns the initial empty `result` dict without raising. -/
theorem queryApi_allRateLimited_returns_empty :
    queryApi (fun _ => rateLimitedResponse) = (.ok [], [1, 2, 4, 8, 16, 32])
    ∧ [1, 2, 4, 8, 16, 32].sum > backoffLimit := by
  constructor
  · rfl
  · decide

/-- C3: with one stored transaction (hash `aa`, timestamp 5) and a persisted
range whose lower bound is 0 (case 3), the claim says the forward walk
starts from the stored newest transaction's hash and covers its timestamp
up to `end_ts`.  The code instead issues the walk with
`from_hash = "latest"` and `start_ts = end_ts`: line 556's
`result_hash = cursor.fetchone()[0]` consumes the max-query cursor's only
row, so the walrus `result_hash := cursor.fetchone()` on line 558 reads an
exhausted cursor and the `max_tx_hash`/`max_timestamp` assignments never
run. -/
theorem fetchPlan_newer_walk_ignores_stored_max :
    fetchTransactionsPlan [("aa", 5)] (some (0, 9)) 3 20
      = [⟨20, 20, "latest", .newer⟩]
    ∧ "latest" ≠ "0x" ++ "aa" ∧ (20 : Nat) ≠ 5 := by
  refine ⟨rfl, by decide, by decide⟩

/-- C2 counterexample: the claim says the normalized ChangePubKey's
`amount` holds op.fee parsed and scaled (here `100` scaled by 2 decimals,
i.e. `1`); the code leaves `amount` at `ZERO` and stores the scaled fee in
the `fee` field instead (`asset = asset_amount[0]  # there is no amount`). -/
theorem changepubkey_amount_counterexample :
    (deserializeZksyncTransaction sampleTokenMap cpkEntry "0xACC").map
        ZKSyncLiteTransaction.amount = some 0
    ∧ assetNormalizedValue 100 tokenA = 1
    ∧ (0 : ℚ) ≠ 1
    ∧ (deserializeZksyncTransaction sampleTokenMap cpkEntry "0xACC").map
        ZKSyncLiteTransaction.fee = some (some (assetNormalizedValue 100 tokenA)) := by
  refine ⟨by decide, by decide, by norm_num, by decide⟩

/-- Inversion of `_get_token_and_amount_by_id_or_log` when an amount key is
supplied. -/
theorem getTokenAndAmount_inv (m : Nat → Option CryptoAsset)
    (av : Option Nat) (sv : Option String) (a : CryptoAsset) (q : ℚ)
    (h : getTokenAndAmountByIdOrLog m av (some sv) = some (a, q)) :
    ∃ tid s raw, av = some tid ∧ m tid = some a ∧ sv = some s ∧
      deserializeIntFromStr s = some raw ∧ q = assetNormalizedValue raw a := by
  cases av with
  | none => simp [getTokenAndAmountByIdOrLog] at h
  | some tid =>
    cases hm : m tid with
    | none => simp [getTokenAndAmountByIdOrLog, hm] at h
    | some a0 =>
      cases sv with
      | none => simp [getTokenAndAmountByIdOrLog, hm] at h
      | some s =>
        cases hr : deserializeIntFromStr s with
        | none => simp [getTokenAndAmountByIdOrLog, hm, hr] at h
        | some raw =>
          simp only [getTokenAndAmountByIdOrLog, hm, hr, Option.bind_eq_bind,
            Option.some_bind, Option.pure_def, Option.some.injEq,
            Prod.mk.injEq] at h
          refine ⟨tid, s, raw, rfl, ?_, rfl, hr, ?_⟩
          · rw [← h.1]; exact hm
          · rw [← h.1]; exact h.2.symm

/-- C2 amended: for every envelope of declared type ChangePubKey that
normalizes successfully, the resulting transaction's `amount` is 0; the
value of `op.fee`, parsed as an arbitrary-precision integer and scaled by
the asset's decimal precision, is stored in the `fee` field instead
(`None` when the parsed fee is zero, per Python truthiness). -/
theorem changepubkey_amount_zero_fee_stored
    (idToToken : Nat → Option CryptoAsset) (entry : RawEntry) (addr : String)
    (tx : ZKSyncLiteTransaction)
    (h : deserializeZksyncTransaction idToToken entry addr = some tx)
    (htype : ZKSyncLiteTXType.deserialize entry.op.type = some .changepubkey) :
    tx.amount = 0 ∧ tx.tx_type = .changepubkey ∧
    ∃ s raw, entry.op.fee = some s ∧ deserializeIntFromStr s = some raw ∧
      tx.fee = (if raw = 0 then none
                else some (assetNormalizedValue raw tx.asset)) := by
  simp only [deserializeZksyncTransaction, htype] at h
  split at h
  · simp at h
  · split at h
    · simp at h
    next feeRaw hfra =>
      split at h
      · simp at h
      next b hbr =>
        simp only [Option.some.injEq] at h
        subst h
        simp only [deserializeBranch, Option.bind_eq_bind,
          Option.bind_eq_some] at hbr
        obtain ⟨f, hf, res, hres, hpure⟩ := hbr
        obtain ⟨ra, rq⟩ := res
        obtain ⟨tid, s, raw, hav, hm, hs, hparse, hq⟩ :=
          getTokenAndAmount_inv idToToken entry.op.feeToken entry.op.fee ra rq hres
        simp only [Option.pure_def, Option.some.injEq] at hpure
        subst hpure
        rw [hs] at hfra
        simp only [hparse, Option.map_some', Option.some.injEq] at hfra
        subst hfra
        exact ⟨rfl, rfl, s, raw, hs, hparse, rfl⟩

/-- Witness for `changepubkey_amount_zero_fee_stored` at `cpkEntry`. -/
theorem changepubkey_amount_zero_fee_stored_witness :
    cpkTxVal.amount = 0 ∧ cpkTxVal.tx_type = .changepubkey ∧
    ∃ s raw, cpkEntry.op.fee = some s ∧ deserializeIntFromStr s = some raw ∧
      cpkTxVal.fee = (if raw = 0 then none
                      else some (assetNormalizedValue raw cpkTxVal.asset)) :=
  changepubkey_amount_zero_fee_stored sampleTokenMap cpkEntry "0xACC" cpkTxVal
    (by decide) (by decide)

/-- The only mutation the decoder performs: a ChangePubKey with a truthy
fee gets `amount := fee` and `fee := None`; every other transaction is
returned unchanged. -/
theorem decodeEventData_snd (tx : ZKSyncLiteTransaction) (tracked : List String)
    (ed : List EventTuple) (tx1 : ZKSyncLiteTransaction)
    (h : decodeEventData tx tracked = some (ed, tx1)) :
    tx1 = (if tx.tx_type = .changepubkey ∧ feeTruthy tx.fee = true
           then { tx with amount := tx.fee.getD 0, fee := none }
           else tx) := by
  cases htype : tx.tx_type with
  | deposit =>
    simp only [decodeEventData, htype] at h
    split at h <;>
      simp_all [Prod.ext_iff]
  | withdraw =>
    simp only [decodeEventData, htype] at h
    split at h <;>
      simp_all [Prod.ext_iff]
  | transfer =>
    simp only [decodeEventData, htype] at h
    split at h <;> try split at h
    all_goals try split at h
    all_goals simp_all [Prod.ext_iff]
  | fullexit =>
    simp only [decodeEventData, htype] at h
    simp_all [Prod.ext_iff]
  | forcedexit =>
    simp only [decodeEventData, htype] at h
    simp_all [Prod.ext_iff]
  | changepubkey =>
    simp only [decodeEventData, htype] at h
    split at h <;> simp_all [Prod.ext_iff]
  | swap =>
    simp only [decodeEventData, htype] at h
    split at h <;> simp_all [Prod.ext_iff]

/-- The transaction object `decode_transaction` hands back equals the one
`decodeEventData` produced (the fee-append step never mutates it). -/
theorem decodeTransactionPure_snd (tx : ZKSyncLiteTransaction)
    (tracked : List String) (evs : List EvmEvent)
    (txOut : ZKSyncLiteTransaction)
    (h : decodeTransactionPure tx tracked = some (evs, txOut)) :
    ∃ ed, decodeEventData tx tracked = some (ed, txOut) := by
  unfold decodeTransactionPure at h
  cases hed : decodeEventData tx tracked with
  | none => rw [hed] at h; exact absurd h (by simp)
  | some p =>
    obtain ⟨ed0, tx1⟩ := p
    rw [hed] at h
    simp only [Option.some.injEq, Prod.mk.injEq] at h
    exact ⟨ed0, congrArg some (congrArg (Prod.mk ed0) h.2)⟩

/-- C5 amended: `decode_transaction` leaves every field of the transaction
unchanged, except for a ChangePubKey with a (truthy) fee, whose `amount` is
overwritten with the fee and whose `fee` is cleared (source lines 748-752,
`# to not double count fee with 2 events`). -/
theorem decode_mutates_only_changepubkey
    (tx : ZKSyncLiteTransaction) (tracked : List String)
    (evs : List EvmEvent) (txOut : ZKSyncLiteTransaction)
    (h : decodeTransactionPure tx tracked = some (evs, txOut)) :
    txOut = (if tx.tx_type = .changepubkey ∧ feeTruthy tx.fee = true
             then { tx with amount := tx.fee.getD 0, fee := none }
             else tx) := by
  obtain ⟨ed, hed⟩ := decodeTransactionPure_snd tx tracked evs txOut h
  exact decodeEventData_snd tx tracked ed txOut hed

/-- C5 counterexample: decoding the ChangePubKey transaction `cpkTxVal`
does not leave it unchanged — its `amount` is overwritten with the fee and
the fee is cleared, so the record is not immutable under
`decode_transaction`. -/
theorem decode_mutates_counterexample :
    (decodeTransactionPure cpkTxVal []).map (fun p => p.2) ≠ some cpkTxVal
    ∧ (decodeTransactionPure cpkTxVal []).map (fun p => p.2.amount)
        = some (assetNormalizedValue 100 tokenA)
    ∧ cpkTxVal.amount = 0 := by
  refine ⟨by decide, by decide, by decide⟩

/-- Witness for `decode_mutates_only_changepubkey` at the Transfer
transaction `txAval` (no mutation). -/
theorem decode_mutates_only_changepubkey_witness :
    txAval = (if txAval.tx_type = .changepubkey ∧ feeTruthy txAval.fee = true
              then { txAval with amount := txAval.fee.getD 0, fee := none }
              else txAval) :=
  decode_mutates_only_changepubkey txAval [] [] txAval (by decide)

/-- C6: a Swap transaction carrying a fee decodes to exactly three events
with sequence indices 0, 1, 2: the trade spend event for the sell leg, the
trade receive event for the buy leg, and a trailing fee event carrying the
transaction's fee amount. -/
theorem decode_swap_with_fee_three_events
    (tx : ZKSyncLiteTransaction) (tracked : List String)
    (sd : ZKSyncLiteSwapData) (f : ℚ)
    (htype : tx.tx_type = .swap) (hsd : tx.swap_data = some sd)
    (hfee : tx.fee = some f) :
    decodeTransactionPure tx tracked = some
      ([mkEvent (zklIdentifier tx.tx_hash) tx.tx_hash tx.timestamp
          ⟨0, .trade, .spend, sd.from_asset, sd.from_amount,
            tx.from_address, tx.to_address⟩,
        mkEvent (zklIdentifier tx.tx_hash) tx.tx_hash tx.timestamp
          ⟨1, .trade, .receive, sd.to_asset, sd.to_amount,
            tx.from_address, tx.to_address⟩,
        { event_identifier := zklIdentifier tx.tx_hash
          tx_hash := tx.tx_hash
          sequence_index := 2
          timestamp := tx.timestamp * 1000
          event_type := .trade
          event_subtype := .fee
          asset := tx.asset
          amount := f
          location_label := tx.from_address
          address := tx.to_address }], tx) := by
  simp only [decodeTransactionPure, decodeEventData, htype, hsd, hfee,
    appendFeeEvent, mkEvent, List.map_cons, List.map_nil, List.getLast?_cons,
    List.getLast?_singleton, List.getLast, Option.some.injEq, Prod.mk.injEq]
  norm_num
  decide

/-- Witness for `decode_swap_with_fee_three_events` at `txSwapVal`. -/
theorem decode_swap_with_fee_three_events_witness :
    decodeTransactionPure txSwapVal [] = some
      ([mkEvent (zklIdentifier txSwapVal.tx_hash) txSwapVal.tx_hash
          txSwapVal.timestamp
          ⟨0, .trade, .spend, swapSd.from_asset, swapSd.from_amount,
            txSwapVal.from_address, txSwapVal.to_address⟩,
        mkEvent (zklIdentifier txSwapVal.tx_hash) txSwapVal.tx_hash
          txSwapVal.timestamp
          ⟨1, .trade, .receive, swapSd.to_asset, swapSd.to_amount,
            txSwapVal.from_address, txSwapVal.to_address⟩,
        { event_identifier := zklIdentifier txSwapVal.tx_hash
          tx_hash := txSwapVal.tx_hash
          sequence_index := 2
          timestamp := txSwapVal.timestamp * 1000
          event_type := .trade
          event_subtype := .fee
          asset := txSwapVal.asset
          amount := assetNormalizedValue 5 tokenA
          location_label := txSwapVal.from_address
          address := txSwapVal.to_address }], txSwapVal) :=
  decode_swap_with_fee_three_events txSwapVal [] swapSd
    (assetNormalizedValue 5 tokenA) rfl rfl rfl

/-- Every event produced by the fee-append step is either one of the input
events or carries the given event identifier. -/
theorem appendFeeEvent_mem (eid th : String) (ts : Nat) (tg : Option String)
    (events : List EvmEvent) (tx1 : ZKSyncLiteTransaction) (ev : EvmEvent)
    (h : ev ∈ appendFeeEvent eid th ts tg events tx1) :
    ev ∈ events ∨ ev.event_identifier = eid := by
  unfold appendFeeEvent at h
  split at h
  next e0 es f =>
    split at h
    · rcases List.mem_append.mp h with hm | hm
      · exact Or.inl hm
      · simp only [List.mem_singleton] at hm
        subst hm
        exact Or.inr rfl
    · exact Or.inl h
  next => exact Or.inl h

/-- Every event `decode_transaction` emits carries the identifier derived
from the transaction's hash. -/
theorem decodePure_event_identifiers (tx : ZKSyncLiteTransaction)
    (tracked : List String) (evs : List EvmEvent)
    (txOut : ZKSyncLiteTransaction)
    (h : decodeTransactionPure tx tracked = some (evs, txOut)) :
    ∀ ev ∈ evs, ev.event_identifier = zklIdentifier tx.tx_hash := by
  unfold decodeTransactionPure at h
  cases hed : decodeEventData tx tracked with
  | none => rw [hed] at h; exact absurd h (by simp)
  | some p =>
    obtain ⟨ed0, tx1⟩ := p
    rw [hed] at h
    simp only [Option.some.injEq, Prod.mk.injEq] at h
    intro ev hev
    rw [← h.1] at hev
    rcases appendFeeEvent_mem _ _ _ _ _ _ _ hev with hm | hid
    · obtain ⟨t, _, rfl⟩ := List.mem_map.mp hm
      rfl
    · exact hid

/-- Setting the decoded flag is idempotent on the row list. -/
theorem flagMap_idem (h : String) (l : List DBRow) :
    (l.map (fun r => if r.tx.tx_hash = h then { r with isDecoded := true } else r)).map
        (fun r => if r.tx.tx_hash = h then { r with isDecoded := true } else r)
      = l.map (fun r => if r.tx.tx_hash = h then { r with isDecoded := true } else r) := by
  induction l with
  | nil => rfl
  | cons r rs ih =>
    simp only [List.map_cons, ih]
    by_cases hr : r.tx.tx_hash = h
    · simp [hr]
    · simp [hr]

/-- C4: one bulk-pass processing step for a transaction — delete its stored
events, decode, insert, set the flag — is idempotent: running it a second
time on its own output changes nothing, so the event set stored for the
transaction is bit-identical across repeated decode passes. -/
theorem decode_twice_idempotent (tracked : List String)
    (tx : ZKSyncLiteTransaction) (st st1 : DBState)
    (h : decodeStep tracked tx st = some st1) :
    decodeStep tracked tx st1 = some st1 := by
  unfold decodeStep decodeTransactionDb at h ⊢
  cases hp : decodeTransactionPure tx tracked with
  | none => rw [hp] at h; exact absurd h (by simp)
  | some p =>
    obtain ⟨evs, txo⟩ := p
    have hids := decodePure_event_identifiers tx tracked evs txo hp
    rw [hp] at h
    simp only [Option.some.injEq] at h ⊢
    subst h
    simp only [deleteEventsByIdentifier, DBState.mk.injEq, and_true, true_and]
    refine ⟨flagMap_idem tx.tx_hash st.txs, ?_⟩
    have hevs : List.filter
        (fun e => decide (e.event_identifier ≠ zklIdentifier tx.tx_hash)) evs = [] :=
      List.filter_eq_nil_iff.mpr (fun a ha => by simp [hids a ha])
    have hself : List.filter
        (fun e => decide (e.event_identifier ≠ zklIdentifier tx.tx_hash))
        (List.filter
          (fun e => decide (e.event_identifier ≠ zklIdentifier tx.tx_hash)) st.events)
        = List.filter
            (fun e => decide (e.event_identifier ≠ zklIdentifier tx.tx_hash)) st.events :=
      List.filter_eq_self.mpr (fun a ha => (List.mem_filter.mp ha).2)
    simp only [List.filter_append, hevs, hself, List.append_nil]

/-- Witness for `decode_twice_idempotent`: the state after one decode step
of `txAval` (sender tracked) is a fixed point of the step. -/
theorem decode_twice_idempotent_witness :
    decodeStep ["0xF"] txAval ((decodeStep ["0xF"] txAval emptyDb).getD emptyDb)
      = some ((decodeStep ["0xF"] txAval emptyDb).getD emptyDb) :=
  decode_twice_idempotent ["0xF"] txAval emptyDb
    ((decodeStep ["0xF"] txAval emptyDb).getD emptyDb) (by decide)

/-- C10: `decode_transaction` sets `is_decoded = 1` for the transaction's
hash unconditionally; in particular a Transfer with neither side tracked
emits zero events yet is flagged, and is therefore excluded from the
selection of a later non-forced bulk decode pass. -/
theorem decode_sets_flag_unconditionally
    (tx : ZKSyncLiteTransaction) (tracked : List String) (st st1 : DBState)
    (h : decodeTransactionDb tx tracked st = some st1) :
    (∀ r ∈ st1.txs, r.tx.tx_hash = tx.tx_hash → r.isDecoded = true)
    ∧ (tx.tx_type = .transfer →
        optTracked tx.from_address tracked = false →
        optTracked tx.to_address tracked = false →
        decodeTransactionPure tx tracked = some ([], tx)
        ∧ ∀ r ∈ getDbTransactionsUndecoded st1, r.tx_hash ≠ tx.tx_hash) := by
  unfold decodeTransactionDb at h
  cases hp : decodeTransactionPure tx tracked with
  | none => rw [hp] at h; exact absurd h (by simp)
  | some p =>
    obtain ⟨evs, txo⟩ := p
    rw [hp] at h
    simp only [Option.some.injEq] at h
    subst h
    have hflag : ∀ r ∈ st.txs.map
        (fun r => if r.tx.tx_hash = tx.tx_hash then { r with isDecoded := true } else r),
        r.tx.tx_hash = tx.tx_hash → r.isDecoded = true := by
      intro r hr hhash
      simp only [List.mem_map] at hr
      obtain ⟨r0, hr0, rfl⟩ := hr
      by_cases hc : r0.tx.tx_hash = tx.tx_hash
      · simp [hc]
      · simp only [if_neg hc] at hhash ⊢
        exact absurd hhash hc
    refine ⟨hflag, ?_⟩
    intro htype hfrom hto
    have hp2 : decodeTransactionPure tx tracked = some ([], tx) := by
      simp [decodeTransactionPure, decodeEventData, htype, hfrom, hto,
        appendFeeEvent]
    refine ⟨hp.symm.trans hp2, ?_⟩
    intro r hr
    simp only [getDbTransactionsUndecoded, List.mem_map, List.mem_filter,
      decide_eq_true_eq] at hr
    obtain ⟨r0, ⟨hr0mem, hr0flag⟩, rfl⟩ := hr
    intro hcontra
    have hture := hflag r0 (List.mem_map.mpr hr0mem) hcontra
    rw [hture] at hr0flag
    exact Bool.noConfusion hr0flag

/-- Witness for `decode_sets_flag_unconditionally` at `txAval` with an
unrelated tracked address. -/
theorem decode_sets_flag_unconditionally_witness :
    (∀ r ∈ stWithADecoded.txs, r.tx.tx_hash = txAval.tx_hash → r.isDecoded = true)
    ∧ (txAval.tx_type = .transfer →
        optTracked txAval.from_address ["0xZZ"] = false →
        optTracked txAval.to_address ["0xZZ"] = false →
        decodeTransactionPure txAval ["0xZZ"] = some ([], txAval)
        ∧ ∀ r ∈ getDbTransactionsUndecoded stWithADecoded,
            r.tx_hash ≠ txAval.tx_hash) :=
  decode_sets_flag_unconditionally txAval ["0xZZ"] stWithA stWithADecoded
    (by decide)

/-- C9: when the batch reaches a transaction whose hash is already stored
(`IntegrityError` on insert), that entry is skipped and the remainder of
the batch is processed exactly as if the duplicate were absent. -/
theorem addZksynctxs_duplicate_skipped (xs ys : List ZKSyncLiteTransaction)
    (d : ZKSyncLiteTransaction) (st st1 : DBState)
    (h1 : addZksyncTxsDb xs st = some st1) (hd : d.tx_hash ∈ txHashes st1) :
    addZksyncTxsDb (xs ++ d :: ys) st = addZksyncTxsDb ys st1 := by
  induction xs generalizing st with
  | nil =>
    simp only [addZksyncTxsDb, Option.some.injEq] at h1
    subst h1
    simp only [List.nil_append, addZksyncTxsDb, if_pos hd]
  | cons x xs ih =>
    rw [List.cons_append]
    simp only [addZksyncTxsDb] at h1 ⊢
    by_cases hc : x.tx_hash ∈ txHashes st
    · rw [if_pos hc] at h1 ⊢
      exact ih st h1
    · rw [if_neg hc] at h1 ⊢
      cases hins : insertTx x st with
      | none => rw [hins] at h1; exact absurd h1 (by simp)
      | some st2 => rw [hins] at h1; exact ih st2 h1

/-- Witness for `addZksynctxs_duplicate_skipped`: the duplicate of the
stored `txAval` is skipped and `txCval` is still processed. -/
theorem addZksynctxs_duplicate_skipped_witness :
    addZksyncTxsDb ([] ++ txAdup :: [txCval]) stWithA
      = addZksyncTxsDb [txCval] stWithA :=
  addZksynctxs_duplicate_skipped [] [txCval] txAdup stWithA stWithA rfl
    (by decide)

/-- Walks already completed successfully feed their final state into the
remaining walks. -/
theorem runWalks_append (ws1 ws2 : List WalkSpec) (st st1 : DBState)
    (h : runWalks ws1 st = .done st1) :
    runWalks (ws1 ++ ws2) st = runWalks ws2 st1 := by
  induction ws1 generalizing st with
  | nil =>
    simp only [runWalks, WalkExit.done.injEq] at h
    subst h
    rfl
  | cons w ws ih =>
    rw [List.cons_append]
    simp only [runWalks] at h ⊢
    cases hq : querySaveRange w st with
    | done st2 => rw [hq] at h; exact ih st2 h
    | remoteErr st2 => rw [hq] at h; exact absurd h (by simp)
    | crashed => rw [hq] at h; exact absurd h (by simp)

/-- If the page loop completes on a prefix of good pages, then the same
loop hitting a `RemoteError` page right after that prefix raises with
exactly the state the prefix produced: every batch committed before the
failure is still there, nothing is rolled back, and the remainder is not
fetched. -/
theorem querySaveGo_err_after_good (loc : String) (dir : Direction)
    (good : List (List ZKSyncLiteTransaction))
    (rest : List (Option (List ZKSyncLiteTransaction)))
    (cs ce : Nat) (seen : List ZKSyncLiteTransaction) (st st1 : DBState)
    (h : querySaveGo loc dir (good.map some) cs ce seen st = .done st1) :
    querySaveGo loc dir (good.map some ++ none :: rest) cs ce seen st
      = .remoteErr st1 := by
  induction good generalizing cs ce seen st with
  | nil =>
    simp only [List.map_nil, querySaveGo, WalkExit.done.injEq] at h
    subst h
    rfl
  | cons g gs ih =>
    cases g with
    | nil =>
      simp only [List.map_cons, List.cons_append, querySaveGo] at h ⊢
      exact ih cs ce seen st h
    | cons b bs =>
      simp only [List.map_cons, List.cons_append, querySaveGo] at h ⊢
      cases hadd : addZksyncTxsDb
          (((b :: bs).dedup).filter (fun t => decide (t ∉ seen))) st with
      | none => rw [hadd] at h; exact absurd h (by simp)
      | some st2 => rw [hadd] at h; exact ih _ _ _ _ h

/-- C8: if the walks before walk `w` complete (`h1`) and `w`'s good page
prefix commits its batches yielding `st2` (`h2`), then the whole
`fetch_transactions` call whose walk `w` then hits a `RemoteError` page
returns normally with exactly `st2`: the error is caught and logged, every
batch persisted before the failure remains persisted, and nothing is
rolled back. -/
theorem fetch_remote_error_caught_preserves
    (ws1 ws2 : List WalkSpec) (good : List (List ZKSyncLiteTransaction))
    (rest : List (Option (List ZKSyncLiteTransaction)))
    (loc : String) (s e : Nat) (dir : Direction) (st st1 st2 : DBState)
    (h1 : runWalks ws1 st = .done st1)
    (h2 : querySaveRange ⟨good.map some, loc, s, e, dir⟩ st1 = .done st2) :
    fetchTransactionsRun
      (ws1 ++ ⟨good.map some ++ none :: rest, loc, s, e, dir⟩ :: ws2) st
      = .returned st2 := by
  unfold fetchTransactionsRun
  rw [runWalks_append ws1 _ st st1 h1]
  unfold querySaveRange at h2
  simp only [runWalks, querySaveRange]
  rw [querySaveGo_err_after_good loc dir good rest s e [] st1 st2 h2]

/-- Witness for `fetch_remote_error_caught_preserves`: one good page, then
a `RemoteError` page. -/
theorem fetch_remote_error_caught_preserves_witness :
    fetchTransactionsRun
      ([] ++ (⟨[[txAval]].map some ++ none :: [], "L", 0, 50, .older⟩ : WalkSpec) :: [])
      emptyDb
      = .returned stAfterBatch :=
  fetch_remote_error_caught_preserves [] [] [[txAval]] [] "L" 0 50 .older
    emptyDb emptyDb stAfterBatch rfl (by decide)

/-- Entries that never normalize to `t0` contribute no copy of `t0`. -/
theorem procRest_count_none (norm : RawEntry → Option ZKSyncLiteTransaction)
    (t0 : ZKSyncLiteTransaction) (es : List RawEntry) :
    ∀ acc, (∀ e ∈ es, norm e ≠ some t0) →
      (procRest norm es acc).1.count t0 = acc.1.count t0 := by
  induction es with
  | nil => intro acc _; rfl
  | cons e es ih =>
    intro acc hn
    simp only [procRest]
    rw [ih _ (fun x hx => hn x (List.mem_cons_of_mem e hx))]
    unfold procEntry
    cases hne : norm e with
    | none => rfl
    | some t =>
      have hts : ¬(t = t0) := fun hEq =>
        hn e (List.mem_cons_self e es) (by rw [hne, hEq])
      simp [List.count_append, List.count_singleton, hts]

/-- The running `last_tx_hash` after a partial page is the incoming one or
one of the page's entry hashes. -/
theorem procRest_last_mem (norm : RawEntry → Option ZKSyncLiteTransaction)
    (es : List RawEntry) :
    ∀ acc, (procRest norm es acc).2 = acc.2
      ∨ (procRest norm es acc).2 ∈ es.map RawEntry.txHash := by
  induction es with
  | nil => intro acc; exact Or.inl rfl
  | cons e es ih =>
    intro acc
    simp only [procRest, List.map_cons]
    rcases ih (procEntry norm e acc) with h | h
    · rw [h]
      unfold procEntry
      cases hne : norm e with
      | none => exact Or.inl rfl
      | some t => exact Or.inr (List.mem_cons_self _ _)
    · exact Or.inr (List.mem_cons_of_mem _ h)

/-- A page none of whose entries normalizes to `t0` yields no copy of
`t0`. -/
theorem procPage_count_none (norm : RawEntry → Option ZKSyncLiteTransaction)
    (t0 : ZKSyncLiteTransaction) (p : List RawEntry) (last : String)
    (hn : ∀ e ∈ p, norm e ≠ some t0) :
    (procPage norm p last).1.count t0 = 0 := by
  cases p with
  | nil => rfl
  | cons e es =>
    simp only [procPage]
    have hrest := fun acc => procRest_count_none norm t0 es acc
      (fun x hx => hn x (List.mem_cons_of_mem e hx))
    split
    · rw [hrest ([], last)]
      rfl
    · rw [hrest (procEntry norm e ([], last))]
      unfold procEntry
      cases hne : norm e with
      | none => rfl
      | some t =>
        have hts : ¬(t = t0) := fun hEq =>
          hn e (List.mem_cons_self e es) (by rw [hne, hEq])
        simp [List.count_cons, hts]

/-- The `last_tx_hash` after a whole page is the incoming one or one of the
page's entry hashes. -/
theorem procPage_last_mem (norm : RawEntry → Option ZKSyncLiteTransaction)
    (p : List RawEntry) (last : String) :
    (procPage norm p last).2 = last
      ∨ (procPage norm p last).2 ∈ p.map RawEntry.txHash := by
  cases p with
  | nil => exact Or.inl rfl
  | cons e es =>
    simp only [procPage, List.map_cons]
    split
    · rcases procRest_last_mem norm es ([], last) with h | h
      · exact Or.inl h
      · exact Or.inr (List.mem_cons_of_mem _ h)
    · rcases procRest_last_mem norm es (procEntry norm e ([], last)) with h | h
      · rw [h]
        unfold procEntry
        cases hne : norm e with
        | none => exact Or.inl rfl
        | some t => exact Or.inr (List.mem_cons_self _ _)
      · exact Or.inr (List.mem_cons_of_mem _ h)

/-- Whole-session count: sessions none of whose entries normalizes to `t0`
yield no copy of `t0`. -/
theorem procPagesAcc_count_none (norm : RawEntry → Option ZKSyncLiteTransaction)
    (t0 : ZKSyncLiteTransaction) (ps : List (List RawEntry)) :
    ∀ last, (∀ e ∈ ps.flatten, norm e ≠ some t0) →
      (procPagesAcc norm ps last).1.count t0 = 0 := by
  induction ps with
  | nil => intro last _; rfl
  | cons p ps ih =>
    intro last hn
    simp only [procPagesAcc, List.count_append]
    rw [procPage_count_none norm t0 p last
        (fun e he => hn e (List.mem_flatten.mpr ⟨p, List.mem_cons_self _ _, he⟩)),
      ih _ (fun e he => hn e (by
        rcases List.mem_flatten.mp he with ⟨s, hs, hes⟩
        exact List.mem_flatten.mpr ⟨s, List.mem_cons_of_mem _ hs, hes⟩))]

/-- The `last_tx_hash` after a whole session is the initial one or one of
the session's entry hashes. -/
theorem procPagesAcc_last_mem (norm : RawEntry → Option ZKSyncLiteTransaction)
    (ps : List (List RawEntry)) :
    ∀ last, (procPagesAcc norm ps last).2 = last
      ∨ (procPagesAcc norm ps last).2 ∈ (ps.flatten).map RawEntry.txHash := by
  induction ps with
  | nil => intro last; exact Or.inl rfl
  | cons p ps ih =>
    intro last
    simp only [procPagesAcc, List.flatten_cons, List.map_append]
    rcases ih (procPage norm p last).2 with h | h
    · rw [h]
      rcases procPage_last_mem norm p last with h2 | h2
      · exact Or.inl h2
      · exact Or.inr (List.mem_append_left _ h2)
    · exact Or.inr (List.mem_append_right _ h)

/-- The processing of `es ++ [b]` ends by processing `b` (no skip check
applies past the page head). -/
theorem procRest_append (norm : RawEntry → Option ZKSyncLiteTransaction)
    (es : List RawEntry) (b : RawEntry) :
    ∀ acc, procRest norm (es ++ [b]) acc
      = procEntry norm b (procRest norm es acc) := by
  induction es with
  | nil => intro acc; rfl
  | cons e es ih =>
    intro acc
    simp only [List.cons_append, procRest]
    exact ih _

/-- A page ending in the boundary row `b` (which normalizes to `t0`, while
no earlier row of the page does) emits `t0` exactly once and leaves
`last_tx_hash = b.txHash` — provided the incoming `last_tx_hash` differs
from `b`'s hash, so the head skip cannot drop `b` itself. -/
theorem procEntry_some (norm : RawEntry → Option ZKSyncLiteTransaction)
    (e : RawEntry) (acc : List ZKSyncLiteTransaction × String)
    (t : ZKSyncLiteTransaction) (h : norm e = some t) :
    procEntry norm e acc = (acc.1 ++ [t], e.txHash) := by
  simp [procEntry, h]

theorem procPage_boundary (norm : RawEntry → Option ZKSyncLiteTransaction)
    (q : List RawEntry) (b : RawEntry) (t0 : ZKSyncLiteTransaction)
    (last : String) (hq : ∀ e ∈ q, norm e ≠ some t0) (hb : norm b = some t0)
    (hlast : ¬ b.txHash = last) :
    (procPage norm (q ++ [b]) last).1.count t0 = 1
    ∧ (procPage norm (q ++ [b]) last).2 = b.txHash := by
  cases q with
  | nil =>
    simp only [List.nil_append, procPage]
    rw [if_neg hlast]
    rw [show procRest norm [] (procEntry norm b ([], last))
        = procEntry norm b ([], last) from rfl]
    rw [procEntry_some norm b ([], last) t0 hb]
    exact ⟨by simp, rfl⟩
  | cons e es =>
    simp only [List.cons_append, procPage]
    have hesq : ∀ x ∈ es, norm x ≠ some t0 :=
      fun x hx => hq x (List.mem_cons_of_mem e hx)
    split
    · rw [procRest_append, procEntry_some norm b _ t0 hb]
      refine ⟨?_, rfl⟩
      rw [List.count_append, procRest_count_none norm t0 es ([], last) hesq]
      simp
    · rw [procRest_append, procEntry_some norm b _ t0 hb]
      refine ⟨?_, rfl⟩
      rw [List.count_append,
        procRest_count_none norm t0 es (procEntry norm e ([], last)) hesq]
      have hbase : ((procEntry norm e ([], last)).1).count t0 = 0 := by
        cases hne : norm e with
        | none => simp [procEntry, hne]
        | some t =>
          have hts : ¬(t = t0) := fun hEq =>
            hq e (List.mem_cons_self e es) (by rw [hne, hEq])
          simp [procEntry, hne, List.count_cons, hts]
      rw [hbase]
      simp

/-- The head of the page after the boundary is dropped when the incoming
`last_tx_hash` equals its hash (`# at pagination first tx is last query's
last`). -/
theorem procPage_skip_head (norm : RawEntry → Option ZKSyncLiteTransaction)
    (bp : RawEntry) (r : List RawEntry) (last : String)
    (hb : bp.txHash = last) :
    procPage norm (bp :: r) last = procRest norm r ([], last) := by
  simp only [procPage]
  rw [if_pos hb]

/-- Sessions split: processing `ps1 ++ ps2` concatenates the outputs,
threading the `last_tx_hash` from the first part into the second. -/
theorem procPagesAcc_append (norm : RawEntry → Option ZKSyncLiteTransaction)
    (ps1 : List (List RawEntry)) :
    ∀ ps2 last,
      procPagesAcc norm (ps1 ++ ps2) last
        = ((procPagesAcc norm ps1 last).1
            ++ (procPagesAcc norm ps2 (procPagesAcc norm ps1 last).2).1,
           (procPagesAcc norm ps2 (procPagesAcc norm ps1 last).2).2) := by
  induction ps1 with
  | nil => intro ps2 last; simp [procPagesAcc]
  | cons p ps ih =>
    intro ps2 last
    simp only [List.cons_append, procPagesAcc, List.append_eq, ih,
      List.append_assoc]

/-- C7: in a fetch session whose pages `i` and `i+1` overlap at the
boundary — page `i` ends with row `b`, page `i+1` starts with a row of the
same hash — the boundary row's normalization `t0` appears exactly once in
the merged output, provided `b` is the only row of the session normalizing
to `t0` and the only one carrying its hash besides the duplicate. -/
theorem boundary_row_appears_once
    (norm : RawEntry → Option ZKSyncLiteTransaction)
    (pre : List (List RawEntry)) (q : List RawEntry) (b bp : RawEntry)
    (r : List RawEntry) (suf : List (List RawEntry))
    (t0 : ZKSyncLiteTransaction)
    (hb : norm b = some t0)
    (hbp : bp.txHash = b.txHash)
    (hpre : ∀ e ∈ pre.flatten, e.txHash ≠ b.txHash ∧ norm e ≠ some t0)
    (hq : ∀ e ∈ q, norm e ≠ some t0)
    (hr : ∀ e ∈ r, norm e ≠ some t0)
    (hsuf : ∀ e ∈ suf.flatten, norm e ≠ some t0)
    (hne : b.txHash ≠ "") :
    (mergedOutput norm (pre ++ (q ++ [b]) :: (bp :: r) :: suf)).count t0 = 1 := by
  unfold mergedOutput
  rw [procPagesAcc_append, List.count_append,
    procPagesAcc_count_none norm t0 pre "" (fun e he => (hpre e he).2)]
  have hlast1 : ¬ b.txHash = (procPagesAcc norm pre "").2 := by
    rcases procPagesAcc_last_mem norm pre "" with h | h
    · rw [h]; exact hne
    · rw [List.mem_map] at h
      obtain ⟨e, he, hhash⟩ := h
      exact fun hcon => (hpre e he).1 (by rw [hhash, ← hcon])
  obtain ⟨hc1, hl1⟩ :=
    procPage_boundary norm q b t0 (procPagesAcc norm pre "").2 hq hb hlast1
  simp only [procPagesAcc, List.count_append]
  rw [hc1, hl1, procPage_skip_head norm bp r b.txHash hbp,
    procRest_count_none norm t0 r ([], b.txHash) hr,
    procPagesAcc_count_none norm t0 suf _ hsuf]
  simp

/-- Witness for `boundary_row_appears_once`: a session of two Transfer
pages overlapping at `entryB`, normalized by the real deserializer. -/
theorem boundary_row_appears_once_witness :
    (mergedOutput (fun e => deserializeZksyncTransaction sampleTokenMap e "0xME")
      ([] ++ ([entryA] ++ [entryB]) :: (entryB :: []) :: [])).count txBval = 1 :=
  boundary_row_appears_once
    (fun e => deserializeZksyncTransaction sampleTokenMap e "0xME")
    [] [entryA] entryB entryB [] [] txBval
    (by decide) rfl (by simp) (by decide) (by simp) (by simp) (by decide)
